import Mathlib

/-!
Verification of the EEX DataLayer (src/eex/datalayer.py) against its
natural-language specification.

Shallow embedding notes:
* Python dicts are modelled as association lists (`List (K × V)`) with
  first-match lookup; Python 3.7+ dict semantics (insertion order kept,
  assignment of a fresh key appends) are mirrored by appending new pairs.
* Python floats are modelled as rationals; `np.allclose` is modelled
  elementwise with its default tolerances atol = 1e-8, rtol = 1e-5.
* A method that can raise is modelled as returning an `Except` error code
  (named after the Python exception class raised at the given source line)
  together with the post-call state, so that the "state unchanged on raise"
  side of a claim is expressible.
-/

namespace EEX

instance {e a : Type} [DecidableEq e] [DecidableEq a] : DecidableEq (Except e a)
  | .error x, .error y =>
    if h : x = y then .isTrue (by rw [h]) else .isFalse (by simp [h])
  | .error _, .ok _ => .isFalse (by simp)
  | .ok _, .error _ => .isFalse (by simp)
  | .ok x, .ok y =>
    if h : x = y then .isTrue (by rw [h]) else .isFalse (by simp [h])

/-- First-match association list lookup, modelling Python `d[k]` / `k in d`. -/
def alookup {K V : Type} [DecidableEq K] : List (K × V) → K → Option V
  | [], _ => none
  | p :: ps, k => if p.1 = k then some p.2 else alookup ps k

theorem alookup_nil {K V : Type} [DecidableEq K] (k : K) :
    alookup ([] : List (K × V)) k = none := rfl

theorem alookup_cons {K V : Type} [DecidableEq K] (p : K × V) (ps : List (K × V)) (k : K) :
    alookup (p :: ps) k = if p.1 = k then some p.2 else alookup ps k := rfl

theorem alookup_append_some {K V : Type} [DecidableEq K] {l : List (K × V)} {k : K} {v : V}
    (l₂ : List (K × V)) (h : alookup l k = some v) :
    alookup (l ++ l₂) k = some v := by
  induction l with
  | nil => simp [alookup] at h
  | cons p ps ih =>
    rw [alookup_cons] at h
    by_cases hpk : p.1 = k
    · simp [alookup, hpk] at h ⊢
      exact h
    · simp [alookup, hpk] at h ⊢
      exact ih h

theorem alookup_append_none {K V : Type} [DecidableEq K] {l : List (K × V)} {k : K}
    (l₂ : List (K × V)) (h : alookup l k = none) :
    alookup (l ++ l₂) k = alookup l₂ k := by
  induction l with
  | nil => simp
  | cons p ps ih =>
    rw [alookup_cons] at h
    by_cases hpk : p.1 = k
    · simp [hpk] at h
    · simp [alookup, hpk] at h ⊢
      exact ih h

theorem alookup_mem {K V : Type} [DecidableEq K] {l : List (K × V)} {k : K} {v : V}
    (h : alookup l k = some v) : (k, v) ∈ l := by
  induction l with
  | nil => simp [alookup] at h
  | cons p ps ih =>
    rw [alookup_cons] at h
    by_cases hpk : p.1 = k
    · rw [if_pos hpk] at h
      injection h with h2
      subst h2
      subst hpk
      exact List.mem_cons_self _ _
    · rw [if_neg hpk] at h
      exact List.mem_cons_of_mem _ (ih h)

theorem alookup_eq_none_iff {K V : Type} [DecidableEq K] {l : List (K × V)} {k : K} :
    alookup l k = none ↔ k ∉ l.map Prod.fst := by
  induction l with
  | nil => simp [alookup]
  | cons p ps ih =>
    rw [alookup_cons]
    by_cases hpk : p.1 = k
    · simp [hpk]
    · simp [hpk, ih, Ne.symm hpk]

theorem alookup_singleton_self {K V : Type} [DecidableEq K] (k : K) (v : V) :
    alookup [(k, v)] k = some v := by
  simp [alookup]

/-! ### Unique Value Indexer

Embeds the per-property bidirectional index maintained by
`DataLayer._check_atoms_dict` (initial state: counter = -1, empty maps) and
the loop body of `DataLayer._find_unqiue_atom_values` (lines 117-130), which
for each grouped value tuple either returns the already-assigned id or
increments the counter and inserts the pair into both directions.
Value tuples are an arbitrary type `V` with decidable equality (in the code
they are the grouped, tolerance-rounded column values). -/

structure IndexTable (V : Type) where
  counter : Int
  uvals : List (V × Int)
  inv_uvals : List (Int × V)

/-- Initial per-property index state set up by `_check_atoms_dict`. -/
def IndexTable.init {V : Type} : IndexTable V := ⟨-1, [], []⟩

/-- One iteration of the unique-value loop of `_find_unqiue_atom_values`:
returns the id assigned to the value tuple together with the updated table. -/
def findOrRegister {V : Type} [DecidableEq V] (t : IndexTable V) (v : V) :
    Int × IndexTable V :=
  match alookup t.uvals v with
  | some uidx => (uidx, t)
  | none =>
    let c := t.counter + 1
    (c, ⟨c, t.uvals ++ [(v, c)], t.inv_uvals ++ [(c, v)]⟩)

/-- State after one value tuple has been processed. -/
def stepIT {V : Type} [DecidableEq V] (t : IndexTable V) (v : V) : IndexTable V :=
  (findOrRegister t v).2

/-- Processing a sequence of value tuples starting from table `t`. -/
def processFrom {V : Type} [DecidableEq V] (t : IndexTable V) (l : List V) : IndexTable V :=
  l.foldl stepIT t

/-- All states reachable by the indexer arise as `processAll l` for the
sequence `l` of value tuples handed to the loop (first occurrences in
processing order). -/
def processAll {V : Type} [DecidableEq V] (l : List V) : IndexTable V :=
  processFrom IndexTable.init l

/-- Well-formedness invariant of the bidirectional index. -/
structure IndexWF {V : Type} [DecidableEq V] (t : IndexTable V) : Prop where
  le_counter : ∀ p ∈ t.uvals, p.2 ≤ t.counter
  inv_le_counter : ∀ q ∈ t.inv_uvals, q.1 ≤ t.counter
  inverse : ∀ p ∈ t.uvals, alookup t.inv_uvals p.2 = some p.1
  counter_mem : t.uvals ≠ [] → t.counter ∈ t.uvals.map Prod.snd
  counter_empty : t.uvals = [] → t.counter = -1

theorem indexWF_init {V : Type} [DecidableEq V] : IndexWF (IndexTable.init : IndexTable V) := by
  constructor <;> simp [IndexTable.init]

theorem findOrRegister_none {V : Type} [DecidableEq V] {t : IndexTable V} {v : V}
    (h : alookup t.uvals v = none) :
    findOrRegister t v = (t.counter + 1,
      ⟨t.counter + 1, t.uvals ++ [(v, t.counter + 1)], t.inv_uvals ++ [(t.counter + 1, v)]⟩) := by
  simp [findOrRegister, h]

theorem findOrRegister_some {V : Type} [DecidableEq V] {t : IndexTable V} {v : V} {i : Int}
    (h : alookup t.uvals v = some i) :
    findOrRegister t v = (i, t) := by
  simp [findOrRegister, h]

theorem stepIT_some {V : Type} [DecidableEq V] {t : IndexTable V} {v : V} {i : Int}
    (h : alookup t.uvals v = some i) : stepIT t v = t := by
  unfold stepIT
  rw [findOrRegister_some h]

theorem stepIT_none {V : Type} [DecidableEq V] {t : IndexTable V} {v : V}
    (h : alookup t.uvals v = none) :
    stepIT t v = ⟨t.counter + 1, t.uvals ++ [(v, t.counter + 1)],
      t.inv_uvals ++ [(t.counter + 1, v)]⟩ := by
  unfold stepIT
  rw [findOrRegister_none h]

theorem indexWF_step {V : Type} [DecidableEq V] {t : IndexTable V} (v : V)
    (hwf : IndexWF t) : IndexWF (stepIT t v) := by
  cases hl : alookup t.uvals v with
  | some i => rw [stepIT_some hl]; exact hwf
  | none =>
    rw [stepIT_none hl]
    constructor
    · intro p hp
      rcases List.mem_append.mp hp with hpo | hpn
      · exact le_trans (hwf.le_counter p hpo) (by dsimp only; omega)
      · simp only [List.mem_singleton] at hpn
        subst hpn
        simp
    · intro q hq
      rcases List.mem_append.mp hq with hqo | hqn
      · exact le_trans (hwf.inv_le_counter q hqo) (by dsimp only; omega)
      · simp only [List.mem_singleton] at hqn
        subst hqn
        simp
    · intro p hp
      rcases List.mem_append.mp hp with hpo | hpn
      · exact alookup_append_some _ (hwf.inverse p hpo)
      · simp only [List.mem_singleton] at hpn
        subst hpn
        have hnone : alookup t.inv_uvals (t.counter + 1) = none := by
          rw [alookup_eq_none_iff]
          intro hmem
          rcases List.mem_map.mp hmem with ⟨q, hq, hq1⟩
          have := hwf.inv_le_counter q hq
          omega
        simp only
        rw [alookup_append_none _ hnone]
        exact alookup_singleton_self _ _
    · intro _
      simp
    · intro h
      simp at h

theorem indexWF_processFrom {V : Type} [DecidableEq V] {t : IndexTable V} (l : List V)
    (hwf : IndexWF t) : IndexWF (processFrom t l) := by
  induction l generalizing t with
  | nil => exact hwf
  | cons v vs ih =>
    simp only [processFrom, List.foldl_cons]
    exact ih (indexWF_step v hwf)

theorem indexWF_processAll {V : Type} [DecidableEq V] (l : List V) :
    IndexWF (processAll l) :=
  indexWF_processFrom l indexWF_init

/-- An assigned value-to-id association survives a step. -/
theorem lookup_uvals_step {V : Type} [DecidableEq V] {t : IndexTable V} {v : V} {i : Int}
    (w : V) (h : alookup t.uvals v = some i) :
    alookup (stepIT t w).uvals v = some i := by
  cases hl : alookup t.uvals w with
  | some j => rw [stepIT_some hl]; exact h
  | none => rw [stepIT_none hl]; exact alookup_append_some _ h

theorem lookup_uvals_processFrom {V : Type} [DecidableEq V] {t : IndexTable V} {v : V} {i : Int}
    (l : List V) (h : alookup t.uvals v = some i) :
    alookup (processFrom t l).uvals v = some i := by
  induction l generalizing t with
  | nil => exact h
  | cons w ws ih =>
    simp only [processFrom, List.foldl_cons]
    exact ih (lookup_uvals_step w h)

/-- An assigned id-to-value association survives a step (ids are never
reassigned). -/
theorem lookup_inv_step {V : Type} [DecidableEq V] {t : IndexTable V} {i : Int} {v : V}
    (w : V) (h : alookup t.inv_uvals i = some v) :
    alookup (stepIT t w).inv_uvals i = some v := by
  cases hl : alookup t.uvals w with
  | some j => rw [stepIT_some hl]; exact h
  | none => rw [stepIT_none hl]; exact alookup_append_some _ h

theorem lookup_inv_processFrom {V : Type} [DecidableEq V] {t : IndexTable V} {i : Int} {v : V}
    (l : List V) (h : alookup t.inv_uvals i = some v) :
    alookup (processFrom t l).inv_uvals i = some v := by
  induction l generalizing t with
  | nil => exact h
  | cons w ws ih =>
    simp only [processFrom, List.foldl_cons]
    exact ih (lookup_inv_step w h)

/-- After processing `v` once, `v` is registered. -/
theorem registered_after_step {V : Type} [DecidableEq V] (t : IndexTable V) (v : V) :
    ∃ i, alookup (stepIT t v).uvals v = some i := by
  cases hl : alookup t.uvals v with
  | some j => rw [stepIT_some hl]; exact ⟨j, hl⟩
  | none =>
    rw [stepIT_none hl]
    refine ⟨t.counter + 1, ?_⟩
    simp only
    rw [alookup_append_none _ hl]
    exact alookup_singleton_self _ _

theorem registered_of_mem {V : Type} [DecidableEq V] {v : V} (t : IndexTable V) (l : List V)
    (hv : v ∈ l) : ∃ i, alookup (processFrom t l).uvals v = some i := by
  induction l generalizing t with
  | nil => simp at hv
  | cons w ws ih =>
    simp only [processFrom, List.foldl_cons]
    rcases List.mem_cons.mp hv with hvw | hvs
    · subst hvw
      obtain ⟨i, hi⟩ := registered_after_step t v
      exact ⟨i, lookup_uvals_processFrom ws hi⟩
    · exact ih _ hvs

theorem counter_mono_step {V : Type} [DecidableEq V] (t : IndexTable V) (v : V) :
    t.counter ≤ (stepIT t v).counter := by
  cases hl : alookup t.uvals v with
  | some j => rw [stepIT_some hl]
  | none => rw [stepIT_none hl]; simp

theorem counter_mono_processFrom {V : Type} [DecidableEq V] (t : IndexTable V) (l : List V) :
    t.counter ≤ (processFrom t l).counter := by
  induction l generalizing t with
  | nil => exact le_refl _
  | cons w ws ih =>
    simp only [processFrom, List.foldl_cons]
    exact le_trans (counter_mono_step t w) (ih _)

theorem processFrom_append {V : Type} [DecidableEq V] (t : IndexTable V) (l l₂ : List V) :
    processFrom t (l ++ l₂) = processFrom (processFrom t l) l₂ := by
  simp [processFrom, List.foldl_append]

/-- C4: for every value tuple `v` ever inserted into a property unique-value
index, the inverse lookup of the id assigned to `v` returns `v`
(inv_uvals applied to uvals of v gives back v), and re-inserting the same
tuple returns the same id with the table unchanged (no new entry). -/
theorem indexer_bijection_stable {V : Type} [DecidableEq V] (l : List V) (v : V)
    (hv : v ∈ l) :
    ∃ id, alookup (processAll l).uvals v = some id ∧
      alookup (processAll l).inv_uvals id = some v ∧
      findOrRegister (processAll l) v = (id, processAll l) := by
  obtain ⟨id, hid⟩ := registered_of_mem IndexTable.init l hv
  refine ⟨id, hid, ?_, findOrRegister_some hid⟩
  exact (indexWF_processAll l).inverse (v, id) (alookup_mem hid)

theorem indexer_bijection_stable_witness :
    (5 : ℕ) ∈ [5, 7] ∧
    ∃ id, alookup (processAll [5, 7]).uvals 5 = some id ∧
      alookup (processAll [5, 7]).inv_uvals id = some 5 ∧
      findOrRegister (processAll [5, 7]) 5 = (id, processAll [5, 7]) :=
  ⟨by decide, indexer_bijection_stable [5, 7] 5 (by decide)⟩

/-- C5: the first distinct tuple ever indexed receives id 0; a not yet
registered tuple receives the previous highest id plus one (the counter is
the highest assigned id); the counter is monotonically non-decreasing under
further insertions; and an id once assigned to a value is never reassigned. -/
theorem indexer_id_counter (V : Type) [DecidableEq V] (l l₂ : List V) (v w : V) (id : Int)
    (hv : alookup (processAll l).uvals v = none)
    (hid : alookup (processAll l).inv_uvals id = some w) :
    (findOrRegister (IndexTable.init : IndexTable V) v).1 = 0 ∧
    (findOrRegister (processAll l) v).1 = (processAll l).counter + 1 ∧
    (∀ j ∈ (processAll l).uvals.map Prod.snd, j ≤ (processAll l).counter) ∧
    ((processAll l).uvals ≠ [] → (processAll l).counter ∈ (processAll l).uvals.map Prod.snd) ∧
    ((processAll l).uvals = [] → (processAll l).counter = -1) ∧
    (processAll l).counter ≤ (processAll (l ++ l₂)).counter ∧
    alookup (processAll (l ++ l₂)).inv_uvals id = some w := by
  have hwf := indexWF_processAll l
  refine ⟨?_, ?_, ?_, hwf.counter_mem, hwf.counter_empty, ?_, ?_⟩
  · rw [findOrRegister_none (alookup_nil v)]
    simp [IndexTable.init]
  · rw [findOrRegister_none hv]
  · intro j hj
    rcases List.mem_map.mp hj with ⟨p, hp, hpj⟩
    subst hpj
    exact hwf.le_counter p hp
  · simp only [processAll, processFrom_append]
    exact counter_mono_processFrom _ l₂
  · simp only [processAll, processFrom_append]
    exact lookup_inv_processFrom l₂ hid

theorem indexer_id_counter_witness :
    alookup (processAll [4, 9]).uvals (10 : ℕ) = none ∧
    alookup (processAll [4, 9]).inv_uvals 0 = some 4 ∧
    ((findOrRegister (IndexTable.init : IndexTable ℕ) 10).1 = 0 ∧
     (findOrRegister (processAll [4, 9]) 10).1 = (processAll [4, 9]).counter + 1 ∧
     (∀ j ∈ (processAll [4, 9]).uvals.map Prod.snd, j ≤ (processAll ([4, 9] : List ℕ)).counter) ∧
     ((processAll ([4, 9] : List ℕ)).uvals ≠ [] →
        (processAll ([4, 9] : List ℕ)).counter ∈ (processAll ([4, 9] : List ℕ)).uvals.map Prod.snd) ∧
     ((processAll ([4, 9] : List ℕ)).uvals = [] → (processAll ([4, 9] : List ℕ)).counter = -1) ∧
     (processAll ([4, 9] : List ℕ)).counter ≤ (processAll ([4, 9] ++ [4, 11])).counter ∧
     alookup (processAll ([4, 9] ++ [4, 11])).inv_uvals 0 = some 4) :=
  ⟨by decide, by decide, indexer_id_counter ℕ [4, 9] [4, 11] 10 4 0 (by decide) (by decide)⟩

/-! ### Term Parameter Store

Embeds `DataLayer.add_parameters` (lines 380-472) and the registry state it
operates on. -/

/-- np.allclose default absolute tolerance (1e-8). -/
def atol : ℚ := 1 / 100000000

/-- np.allclose default relative tolerance (1e-5). -/
def rtol : ℚ := 1 / 100000

/-- Elementwise test of np.allclose: abs (a - b) <= atol + rtol * abs b. -/
def isclose (a b : ℚ) : Bool := decide (|a - b| ≤ atol + rtol * |b|)

/-- np.allclose on two parameter vectors. In every state reachable through
the DataLayer API the two vectors compared by add_parameters have equal
length (both were validated against the same registered form), and on
equal-length vectors this is exactly np.allclose with default tolerances. -/
def allclose (xs ys : List ℚ) : Bool :=
  xs.length == ys.length && (List.zip xs ys).all fun p => isclose p.1 p.2

theorem isclose_self (a : ℚ) : isclose a a = true := by
  unfold isclose
  rw [decide_eq_true_eq]
  have h1 : |a - a| = 0 := by simp
  have h2 : (0 : ℚ) ≤ rtol * |a| := mul_nonneg (by norm_num [rtol]) (abs_nonneg a)
  have h3 : (0 : ℚ) < atol := by norm_num [atol]
  rw [h1]
  linarith

theorem mem_zip_self {α : Type} {xs : List α} {p : α × α} (hp : p ∈ xs.zip xs) :
    p.1 = p.2 := by
  induction xs with
  | nil => simp at hp
  | cons x l ih =>
    rw [List.zip_cons_cons] at hp
    rcases List.mem_cons.mp hp with h | h
    · rw [h]
    · exact ih h

theorem allclose_refl (xs : List ℚ) : allclose xs xs = true := by
  unfold allclose
  rw [Bool.and_eq_true]
  refine ⟨by simp, ?_⟩
  rw [List.all_eq_true]
  intro p hp
  rw [mem_zip_self hp]
  exact isclose_self p.2

/-- One stored term parameter entry; the code stores the Python list
term_name :: parameter values. -/
structure TermEntry where
  name : String
  params : List ℚ
deriving DecidableEq

/-- A registered functional form: expression text, ordered parameter names,
per-parameter unit map (the free-text description key is not modelled; no
claim depends on it). -/
structure FunctionalForm where
  form : String
  parameters : List String
  units : List (String × String)
deriving DecidableEq

/-- The DataLayer bonded-term state: the per-order functional form registry
and the per-order term parameter entries keyed by uid. The code initialises
both dicts with the fixed key set 2..7 and rejects other orders; this is
embedded as total functions over the order together with the explicit
2 <= order <= 7 membership test. -/
structure DataLayer where
  functional_forms : ℕ → List (String × FunctionalForm)
  terms : ℕ → List (Int × TermEntry)

def DataLayer.init : DataLayer := ⟨fun _ => [], fun _ => []⟩

/-- Exceptions of add_parameters / register_functional_forms, named after
the Python exception class raised at the corresponding line of
datalayer.py. The notImplementedError constructor stands for the Python
builtin NotImplementedError; no statement of datalayer.py raises it, it is
present so that claims naming it can be stated and refuted. -/
inductive PError where
  | keyErrorUnknownOrder
  | keyErrorNotRegistered
  | typeErrorUnits
  | validationError
  | keyErrorUidConflict
  | notImplementedError
deriving DecidableEq

/-- The dedup search of add_parameters (lines 426-430): the first stored uid
whose entry has the same form name and allclose parameters. -/
def findMatch : List (Int × TermEntry) → String → List ℚ → Option Int
  | [], _, _ => none
  | (k, e) :: rest, name, params =>
    if e.name = name ∧ allclose e.params params = true then some k
    else findMatch rest name params

theorem findMatch_nil (name : String) (params : List ℚ) :
    findMatch [] name params = none := rfl

theorem findMatch_cons (k : Int) (e : TermEntry) (rest : List (Int × TermEntry))
    (name : String) (params : List ℚ) :
    findMatch ((k, e) :: rest) name params =
      if e.name = name ∧ allclose e.params params = true then some k
      else findMatch rest name params := rfl

theorem findMatch_append_of_none {l : List (Int × TermEntry)} {name : String}
    {params : List ℚ} (l₂ : List (Int × TermEntry))
    (h : findMatch l name params = none) :
    findMatch (l ++ l₂) name params = findMatch l₂ name params := by
  induction l with
  | nil => simp
  | cons q qs ih =>
    obtain ⟨k, e⟩ := q
    rw [findMatch_cons] at h
    by_cases hc : e.name = name ∧ allclose e.params params = true
    · rw [if_pos hc] at h
      exact absurd h (by simp)
    · rw [if_neg hc] at h
      rw [List.cons_append, findMatch_cons, if_neg hc]
      exact ih h

/-- The uid allocation of add_parameters (lines 439-443): with n stored
entries, the minimum of set(range(n+1)) minus the used uid set; range(n+1)
is produced in increasing order, so that minimum is the first member of the
range not among the used uids. -/
def allocKey (terms : List (Int × TermEntry)) : Int :=
  if terms.length = 0 then 0
  else
    match ((List.range (terms.length + 1)).map Int.ofNat).filter
        (fun i => decide (i ∉ terms.map Prod.fst)) with
    | [] => 0
    | x :: _ => x

/-- The allocated uid is the smallest non-negative integer not in use. -/
theorem allocKey_spec (terms : List (Int × TermEntry)) :
    0 ≤ allocKey terms ∧ allocKey terms ∉ terms.map Prod.fst ∧
      ∀ m : Int, 0 ≤ m → m ∉ terms.map Prod.fst → allocKey terms ≤ m := by
  by_cases h0 : terms.length = 0
  · have hnil : terms = [] := List.length_eq_zero.mp h0
    subst hnil
    refine ⟨le_refl 0, by simp [allocKey], ?_⟩
    intro m hm _
    simpa [allocKey] using hm
  · set n := terms.length with hn
    set keys := terms.map Prod.fst with hkeys
    set cand := (List.range (n + 1)).map Int.ofNat with hcand
    set free := cand.filter (fun i => decide (i ∉ keys)) with hfree
    have hkeyslen : keys.length = n := by simp [hkeys, hn]
    have hcand_nodup : cand.Nodup := by
      rw [hcand]
      exact List.Nodup.map (fun a b hab => Int.ofNat.inj hab) (List.nodup_range _)
    have hfree_ne : free ≠ [] := by
      intro hemp
      have hall : ∀ i ∈ cand, i ∈ keys := by
        intro i hi
        have := List.filter_eq_nil_iff.mp (hfree ▸ hemp) i hi
        simpa using this
      have hsub : cand.toFinset ⊆ keys.toFinset := by
        intro i hi
        rw [List.mem_toFinset] at hi ⊢
        exact hall i hi
      have hc1 : cand.toFinset.card = n + 1 := by
        rw [List.toFinset_card_of_nodup hcand_nodup, hcand, List.length_map, List.length_range]
      have hc2 : keys.toFinset.card ≤ n := le_trans (List.toFinset_card_le keys) (le_of_eq hkeyslen)
      have := Finset.card_le_card hsub
      omega
    obtain ⟨x, rest, hx⟩ := List.exists_cons_of_ne_nil hfree_ne
    have halloc : allocKey terms = x := by
      unfold allocKey
      rw [if_neg h0]
      rw [← hn, ← hkeys, ← hcand, ← hfree, hx]
    have hx_mem_free : x ∈ free := by rw [hx]; exact List.mem_cons_self _ _
    have hx_cand : x ∈ cand := List.mem_of_mem_filter hx_mem_free
    have hx_not_keys : x ∉ keys := by
      have := List.of_mem_filter hx_mem_free
      simpa using this
    have hx_nonneg_le : 0 ≤ x ∧ x ≤ (n : ℤ) := by
      rw [hcand] at hx_cand
      rcases List.mem_map.mp hx_cand with ⟨i, hi, hix⟩
      rw [List.mem_range] at hi
      rw [Int.ofNat_eq_natCast] at hix
      omega
    have hfree_sorted : free.Pairwise (· < ·) := by
      have hcands : cand.Pairwise (· < ·) := by
        rw [hcand]
        exact (List.pairwise_lt_range _).map Int.ofNat fun a b hab => by
          simp only [Int.ofNat_eq_natCast]
          omega
      exact hcands.sublist (List.filter_sublist _)
    refine ⟨halloc ▸ hx_nonneg_le.1, halloc ▸ hx_not_keys, ?_⟩
    intro m hm hmk
    rw [halloc]
    by_cases hmn : m ≤ (n : ℤ)
    · have hm_cand : m ∈ cand := by
        rw [hcand]
        refine List.mem_map.mpr ⟨m.toNat, ?_, ?_⟩
        · rw [List.mem_range]; omega
        · rw [Int.ofNat_eq_natCast]; omega
      have hm_free : m ∈ free := by
        rw [hfree]
        refine List.mem_filter.mpr ⟨hm_cand, by simpa using hmk⟩
      rw [hx] at hm_free
      rcases List.mem_cons.mp hm_free with hmx | hmr
      · omega
      · have : x < m := (List.pairwise_cons.mp (hx ▸ hfree_sorted)).1 m hmr
        omega
    · omega

/-- State update for the assignment self._terms[order] = ..., leaving the
form registry unchanged. -/
def updTerms (st : DataLayer) (order : ℕ) (l : List (Int × TermEntry)) : DataLayer :=
  ⟨st.functional_forms, Function.update st.terms order l⟩

theorem updTerms_terms_same (st : DataLayer) (order : ℕ) (l : List (Int × TermEntry)) :
    (updTerms st order l).terms order = l :=
  Function.update_same _ _ _

theorem updTerms_forms (st : DataLayer) (order : ℕ) (l : List (Int × TermEntry)) :
    (updTerms st order l).functional_forms = st.functional_forms := rfl

/-- `DataLayer.add_parameters` (lines 380-472). The `term_parameters`
argument is the already ordered numeric parameter vector.
Modelled from the spec: `metadata.validate_term_dict` (the metadata module
is not among the sources) validates parameter_values against the expected
parameter count/names of the registered form and produces an ordered
numeric parameter vector; it is embedded as the count check against the
registered parameter-name list, the vector being supplied in form order.
`metadata.sanitize_term_order_name` (also not among the sources) maps order
aliases to the integer order; `order` here is the sanitized value.
The result is the Python return value or raised exception, paired with the
DataLayer state when the call returns or raises. -/
def addParameters (st : DataLayer) (order : ℕ) (term_name : String)
    (term_parameters : List ℚ) (uid : Option Int) (utype : List (String × String)) :
    Except PError Int × DataLayer :=
  if ¬(2 ≤ order ∧ order ≤ 7) then (.error .keyErrorUnknownOrder, st)
  else
    match alookup (st.functional_forms order) term_name with
    | none => (.error .keyErrorNotRegistered, st)
    | some mdata =>
      if utype ≠ [] then (.error .typeErrorUnits, st)
      else if term_parameters.length ≠ mdata.parameters.length then (.error .validationError, st)
      else
        let params := term_parameters
        let found_key := findMatch (st.terms order) term_name params
        match uid with
        | none =>
          match found_key with
          | some k => (.ok k, st)
          | none =>
            let new_key := allocKey (st.terms order)
            (.ok new_key, updTerms st order (st.terms order ++ [(new_key, ⟨term_name, params⟩)]))
        | some u =>
          match alookup (st.terms order) u with
          | some old_param =>
            if old_param.name = term_name ∧ allclose old_param.params params = true then
              (.ok u, st)
            else (.error .keyErrorUidConflict, st)
          | none =>
            (.ok u, updTerms st order (st.terms order ++ [(u, ⟨term_name, params⟩)]))

/-- Concrete registered state used by the witnesses: the harmonic bond form
of the register_functional_forms docstring, registered at order 2, with no
stored term entries. -/
def exampleForm : FunctionalForm :=
  ⟨"K*(r-R0) ** 2", ["K", "R0"], [("K", "kcal * mol ** 2"), ("R0", "picometers")]⟩

def exampleDL : DataLayer :=
  ⟨fun o => if o = 2 then [("harmonic", exampleForm)] else [], fun _ => []⟩

/-- Concrete state with uids 0 and 2 occupied at order 2 (uid 1 free). -/
def exampleDLGap : DataLayer :=
  ⟨fun o => if o = 2 then [("harmonic", exampleForm)] else [],
   fun o => if o = 2 then [(0, ⟨"harmonic", [4, 5]⟩), (2, ⟨"harmonic", [4, 6]⟩)] else []⟩

/-- C1: with no explicit uid and parameters not yet stored, two calls of
add_parameters with numerically identical parameters return the same uid
both times, and the entry count for the order rises by exactly one, not two
(the second call takes the dedup path and leaves the store unchanged). -/
theorem add_parameters_dedup_idempotent (st : DataLayer) (order : ℕ) (term_name : String)
    (params : List ℚ) (mdata : FunctionalForm)
    (horder : 2 ≤ order ∧ order ≤ 7)
    (hreg : alookup (st.functional_forms order) term_name = some mdata)
    (hlen : params.length = mdata.parameters.length)
    (hnew : findMatch (st.terms order) term_name params = none) :
    ∃ u st₁,
      addParameters st order term_name params none [] = (.ok u, st₁) ∧
      addParameters st₁ order term_name params none [] = (.ok u, st₁) ∧
      (st₁.terms order).length = (st.terms order).length + 1 := by
  refine ⟨allocKey (st.terms order),
    updTerms st order (st.terms order ++ [(allocKey (st.terms order), ⟨term_name, params⟩)]),
    ?_, ?_, ?_⟩
  · simp [addParameters, horder, hreg, hlen, hnew]
  · have hterms := updTerms_terms_same st order
      (st.terms order ++ [(allocKey (st.terms order), ⟨term_name, params⟩)])
    have hfound : findMatch (st.terms order ++
        [(allocKey (st.terms order), ⟨term_name, params⟩)]) term_name params =
        some (allocKey (st.terms order)) := by
      rw [findMatch_append_of_none _ hnew, findMatch_cons]
      rw [if_pos ⟨rfl, allclose_refl params⟩]
    simp [addParameters, horder, hlen, updTerms_forms, hreg, hterms, hfound]
  · simp [updTerms_terms_same]

theorem add_parameters_dedup_idempotent_witness :
    (2 ≤ 2 ∧ 2 ≤ 7) ∧
    alookup (exampleDL.functional_forms 2) "harmonic" = some exampleForm ∧
    findMatch (exampleDL.terms 2) "harmonic" [4, 5] = none ∧
    (∃ u st₁,
      addParameters exampleDL 2 "harmonic" [4, 5] none [] = (.ok u, st₁) ∧
      addParameters st₁ 2 "harmonic" [4, 5] none [] = (.ok u, st₁) ∧
      (st₁.terms 2).length = (exampleDL.terms 2).length + 1) :=
  ⟨by decide, by decide, by decide,
    add_parameters_dedup_idempotent exampleDL 2 "harmonic" [4, 5] exampleForm
      (by decide) (by decide) (by decide) (by decide)⟩

/-- C2: when no existing entry of the order matches and no uid is given,
the uid assigned to the new entry is the smallest non-negative integer not
currently used as a uid for that order. -/
theorem add_parameters_smallest_unused_uid (st : DataLayer) (order : ℕ) (term_name : String)
    (params : List ℚ) (mdata : FunctionalForm)
    (horder : 2 ≤ order ∧ order ≤ 7)
    (hreg : alookup (st.functional_forms order) term_name = some mdata)
    (hlen : params.length = mdata.parameters.length)
    (hnew : findMatch (st.terms order) term_name params = none) :
    ∃ u st₁,
      addParameters st order term_name params none [] = (.ok u, st₁) ∧
      0 ≤ u ∧ u ∉ (st.terms order).map Prod.fst ∧
      ∀ m : Int, 0 ≤ m → m ∉ (st.terms order).map Prod.fst → u ≤ m := by
  obtain ⟨h1, h2, h3⟩ := allocKey_spec (st.terms order)
  refine ⟨allocKey (st.terms order),
    updTerms st order (st.terms order ++ [(allocKey (st.terms order), ⟨term_name, params⟩)]),
    ?_, h1, h2, h3⟩
  simp [addParameters, horder, hreg, hlen, hnew]

theorem isclose_4_9 : isclose 4 9 = false := by
  unfold isclose
  rw [decide_eq_false_iff_not]
  norm_num [atol, rtol, abs_le]

theorem allclose_45_99 : allclose [4, 5] [9, 9] = false := by
  simp [allclose, isclose_4_9]

theorem allclose_46_99 : allclose [4, 6] [9, 9] = false := by
  simp [allclose, isclose_4_9]

theorem findMatch_gap_99 : findMatch (exampleDLGap.terms 2) "harmonic" [9, 9] = none := by
  show findMatch [(0, ⟨"harmonic", [4, 5]⟩), (2, ⟨"harmonic", [4, 6]⟩)] "harmonic" [9, 9] = none
  rw [findMatch_cons, if_neg, findMatch_cons, if_neg]
  · rfl
  · simp [allclose_46_99]
  · simp [allclose_45_99]

theorem add_parameters_smallest_unused_uid_witness :
    (2 ≤ 2 ∧ 2 ≤ 7) ∧
    alookup (exampleDLGap.functional_forms 2) "harmonic" = some exampleForm ∧
    findMatch (exampleDLGap.terms 2) "harmonic" [9, 9] = none ∧
    ∃ st₁, addParameters exampleDLGap 2 "harmonic" [9, 9] none [] = (.ok 1, st₁) := by
  refine ⟨by decide, by decide, findMatch_gap_99, ?_⟩
  obtain ⟨u, st₁, heq, hpos, hnotmem, hmin⟩ :=
    add_parameters_smallest_unused_uid exampleDLGap 2 "harmonic" [9, 9] exampleForm
      (by decide) (by decide) (by decide) findMatch_gap_99
  have h1 : u ≤ 1 := hmin 1 (by norm_num) (by decide)
  have h0 : u ≠ 0 := fun h => hnotmem (by rw [h]; decide)
  have hu : u = 1 := by omega
  exact ⟨st₁, hu ▸ heq⟩

/-- C3: explicit uid semantics. A free uid stores the entry under it
unconditionally (no assumption on the dedup search, so this holds even when
the contents duplicate another entry); an occupied uid whose entry has a
different form name or parameters beyond tolerance raises the conflict
KeyError with the store unchanged; an occupied uid with matching contents
returns the uid with the store unchanged (no new entry). -/
theorem add_parameters_explicit_uid (st : DataLayer) (order : ℕ) (term_name : String)
    (params : List ℚ) (mdata : FunctionalForm) (u : Int)
    (horder : 2 ≤ order ∧ order ≤ 7)
    (hreg : alookup (st.functional_forms order) term_name = some mdata)
    (hlen : params.length = mdata.parameters.length) :
    (alookup (st.terms order) u = none →
      addParameters st order term_name params (some u) [] =
        (.ok u, updTerms st order (st.terms order ++ [(u, ⟨term_name, params⟩)]))) ∧
    (∀ old_param : TermEntry, alookup (st.terms order) u = some old_param →
      ¬(old_param.name = term_name ∧ allclose old_param.params params = true) →
      addParameters st order term_name params (some u) [] =
        (.error .keyErrorUidConflict, st)) ∧
    (∀ old_param : TermEntry, alookup (st.terms order) u = some old_param →
      old_param.name = term_name → allclose old_param.params params = true →
      addParameters st order term_name params (some u) [] = (.ok u, st)) := by
  refine ⟨?_, ?_, ?_⟩
  · intro hfree
    simp [addParameters, horder, hreg, hlen, hfree]
  · intro old hold hmis
    simp [addParameters, horder, hreg, hlen, hold, hmis]
  · intro old hold hname hclose
    simp [addParameters, horder, hreg, hlen, hold, hname, hclose]

theorem add_parameters_explicit_uid_witness :
    (2 ≤ 2 ∧ 2 ≤ 7) ∧
    alookup (exampleDLGap.functional_forms 2) "harmonic" = some exampleForm ∧
    alookup (exampleDLGap.terms 2) 5 = none ∧
    (addParameters exampleDLGap 2 "harmonic" [4, 5] (some 5) []).1 = .ok 5 ∧
    alookup (exampleDLGap.terms 2) 0 = some ⟨"harmonic", [4, 5]⟩ ∧
    addParameters exampleDLGap 2 "harmonic" [9, 9] (some 0) [] =
      (.error .keyErrorUidConflict, exampleDLGap) ∧
    addParameters exampleDLGap 2 "harmonic" [4, 5] (some 0) [] = (.ok 0, exampleDLGap) := by
  refine ⟨by decide, by decide, by decide, ?_, by decide, ?_, ?_⟩
  · have h := (add_parameters_explicit_uid exampleDLGap 2 "harmonic" [4, 5] exampleForm 5
      (by decide) (by decide) (by decide)).1 (by decide)
    rw [h]
  · exact (add_parameters_explicit_uid exampleDLGap 2 "harmonic" [9, 9] exampleForm 0
      (by decide) (by decide) (by decide)).2.1 ⟨"harmonic", [4, 5]⟩ (by decide)
      (by simp [allclose_45_99])
  · exact (add_parameters_explicit_uid exampleDLGap 2 "harmonic" [4, 5] exampleForm 0
      (by decide) (by decide) (by decide)).2.2 ⟨"harmonic", [4, 5]⟩ (by decide) rfl
      (allclose_refl [4, 5])

/-- C6 as stated fails on the code: at a concrete valid call with a
non-empty unit map, add_parameters raises TypeError (datalayer.py line 419
is a raise TypeError statement), not NotImplementedError. -/
theorem add_parameters_units_not_notimplemented :
    (addParameters exampleDL 2 "harmonic" [4, 5] none [("K", "kcal")]).1 =
      .error .typeErrorUnits ∧
    (addParameters exampleDL 2 "harmonic" [4, 5] none [("K", "kcal")]).1 ≠
      .error .notImplementedError := by
  decide

/-- C6 amended: with a valid order and registered form name, calling
add_parameters with a non-empty unit map raises TypeError (not
NotImplementedError), for any uid and parameter vector, and leaves the
term-parameter store unchanged. -/
theorem add_parameters_units_typeerror (st : DataLayer) (order : ℕ) (term_name : String)
    (params : List ℚ) (mdata : FunctionalForm) (uid : Option Int)
    (utype : List (String × String))
    (horder : 2 ≤ order ∧ order ≤ 7)
    (hreg : alookup (st.functional_forms order) term_name = some mdata)
    (hutype : utype ≠ []) :
    addParameters st order term_name params uid utype = (.error .typeErrorUnits, st) := by
  simp [addParameters, horder, hreg, hutype]

theorem add_parameters_units_typeerror_witness :
    (2 ≤ 2 ∧ 2 ≤ 7) ∧
    alookup (exampleDL.functional_forms 2) "harmonic" = some exampleForm ∧
    ([("K", "kcal")] : List (String × String)) ≠ [] ∧
    addParameters exampleDL 2 "harmonic" [4, 5] (some 3) [("K", "kcal")] =
      (.error .typeErrorUnits, exampleDL) :=
  ⟨by decide, by decide, by decide,
    add_parameters_units_typeerror exampleDL 2 "harmonic" [4, 5] exampleForm (some 3)
      [("K", "kcal")] (by decide) (by decide) (by decide)⟩

/-! ### Functional Form Registry

Embeds `DataLayer.register_functional_forms` (lines 302-378). -/

inductive RError where
  | keyErrorUnknownOrder
  | keyErrorMustPassFormOrUnits
  | keyErrorBuiltinNotFound
  | keyErrorAlreadyRegistered
  | assertionError
deriving DecidableEq

/-- Python dict assignment d[name] = f: overwrite in place when the key is
present, append otherwise. -/
def setForm : List (String × FunctionalForm) → String → FunctionalForm →
    List (String × FunctionalForm)
  | [], name, f => [(name, f)]
  | (k, v) :: rest, name, f =>
    if k = name then (k, f) :: rest else (k, v) :: setForm rest name f

theorem alookup_setForm_self (l : List (String × FunctionalForm)) (name : String)
    (f : FunctionalForm) : alookup (setForm l name f) name = some f := by
  induction l with
  | nil => simp [setForm, alookup]
  | cons p ps ih =>
    obtain ⟨k, v⟩ := p
    by_cases h : k = name
    · simp [setForm, h, alookup]
    · simp [setForm, h, alookup, ih]

/-- State update for the assignment self._functional_forms[order][name]. -/
def updForms (st : DataLayer) (order : ℕ) (name : String) (f : FunctionalForm) : DataLayer :=
  ⟨Function.update st.functional_forms order (setForm (st.functional_forms order) name f),
   st.terms⟩

theorem updForms_forms_same (st : DataLayer) (order : ℕ) (name : String)
    (f : FunctionalForm) :
    (updForms st order name f).functional_forms order =
      setForm (st.functional_forms order) name f :=
  Function.update_same _ _ _

/-- `DataLayer.register_functional_forms` (lines 302-378). `builtin` stands
for the read-only catalog lookup `metadata.get_term_metadata order "forms"
name` and `validate` for `metadata.validate_functional_form_dict`
(Modelled from the spec: the metadata module is not among the sources; the
spec describes a built-in catalog keyed by order and name that fails when
absent, and a structural validator checked before acceptance, whose failed
assert raises AssertionError). The built-in path attaches the supplied unit
map to the catalog form. -/
def registerFunctionalForms (builtin : ℕ → String → Option FunctionalForm)
    (validate : String → FunctionalForm → Bool) (st : DataLayer) (order : ℕ)
    (name : String) (form : Option FunctionalForm)
    (utype : Option (List (String × String))) : Except RError Unit × DataLayer :=
  if ¬(2 ≤ order ∧ order ≤ 7) then (.error .keyErrorUnknownOrder, st)
  else
    match form, utype with
    | none, none => (.error .keyErrorMustPassFormOrUnits, st)
    | none, some u =>
      match builtin order name with
      | none => (.error .keyErrorBuiltinNotFound, st)
      | some bf =>
        let f2 : FunctionalForm := ⟨bf.form, bf.parameters, u⟩
        if validate name f2 then (.ok (), updForms st order name f2)
        else (.error .assertionError, st)
    | some f, _ =>
      if (alookup (st.functional_forms order) name).isSome then
        (.error .keyErrorAlreadyRegistered, st)
      else if validate name f then (.ok (), updForms st order name f)
      else (.error .assertionError, st)

/-- C9: for a name already registered at a valid order, the explicit-form
path raises the already-registered KeyError (for any supplied form and unit
map, state unchanged), while the built-in path (no explicit form, units
supplied) succeeds whenever the built-in catalog has the name and the
validator accepts, replacing the prior registration. -/
theorem register_forms_explicit_vs_builtin (builtin : ℕ → String → Option FunctionalForm)
    (validate : String → FunctionalForm → Bool) (st : DataLayer) (order : ℕ)
    (name : String) (f0 : FunctionalForm)
    (horder : 2 ≤ order ∧ order ≤ 7)
    (hreg : alookup (st.functional_forms order) name = some f0) :
    (∀ (f : FunctionalForm) (utype : Option (List (String × String))),
      registerFunctionalForms builtin validate st order name (some f) utype =
        (.error .keyErrorAlreadyRegistered, st)) ∧
    (∀ (bf : FunctionalForm) (u : List (String × String)),
      builtin order name = some bf →
      validate name ⟨bf.form, bf.parameters, u⟩ = true →
      ∃ st₁, registerFunctionalForms builtin validate st order name none (some u) =
        (.ok (), st₁) ∧
        alookup (st₁.functional_forms order) name = some ⟨bf.form, bf.parameters, u⟩) := by
  constructor
  · intro f utype
    simp [registerFunctionalForms, horder, hreg]
  · intro bf u hb hv
    refine ⟨updForms st order name ⟨bf.form, bf.parameters, u⟩, ?_, ?_⟩
    · simp [registerFunctionalForms, horder, hb, hv]
    · rw [updForms_forms_same]
      exact alookup_setForm_self _ _ _

/-- Built-in catalog and validator used by the C9 witness. -/
def exampleBuiltin : ℕ → String → Option FunctionalForm :=
  fun o n => if o = 2 ∧ n = "harmonic" then some exampleForm else none

def exampleValidate : String → FunctionalForm → Bool := fun _ _ => true

theorem register_forms_explicit_vs_builtin_witness :
    (2 ≤ 2 ∧ 2 ≤ 7) ∧
    alookup (exampleDL.functional_forms 2) "harmonic" = some exampleForm ∧
    registerFunctionalForms exampleBuiltin exampleValidate exampleDL 2 "harmonic"
      (some exampleForm) none = (.error .keyErrorAlreadyRegistered, exampleDL) ∧
    ∃ st₁, registerFunctionalForms exampleBuiltin exampleValidate exampleDL 2 "harmonic"
      none (some [("K", "kcal")]) = (.ok (), st₁) ∧
      alookup (st₁.functional_forms 2) "harmonic" =
        some ⟨exampleForm.form, exampleForm.parameters, [("K", "kcal")]⟩ := by
  have h := register_forms_explicit_vs_builtin exampleBuiltin exampleValidate exampleDL 2
    "harmonic" exampleForm (by decide) (by decide)
  exact ⟨by decide, by decide, h.1 exampleForm none,
    h.2 exampleForm [("K", "kcal")] (by decide) rfl⟩

/-! ### Atom Property Store

Embeds `DataLayer.add_atoms` (lines 185-250) and `DataLayer.get_atoms`
(lines 252-298). -/

/-- Modelled from the spec: `metadata.atom_property_to_column` (APC_DICT;
the metadata module is not among the sources), the static catalog mapping
each atom property name to its required column names. Property names are
the lower-case names used by the DataLayer callers and tests; the xyz
columns are those of the add_atoms docstring example. -/
def APC_DICT : List (String × List String) :=
  [("molecule_index", ["molecule_index"]),
   ("atom_type", ["atom_type"]),
   ("charge", ["charge"]),
   ("mass", ["mass"]),
   ("xyz", ["X", "Y", "Z"])]

/-- list(metadata.atom_property_to_column): the known property names. -/
def valid_properties : List String := APC_DICT.map Prod.fst

/-- The add_atoms matching loop (lines 236-245): the properties whose full
required-column set is a subset of the input columns, in catalog order
(exactly the properties handed to _store_atom_table). -/
def matchedProperties (apc : List (String × List String)) (cols : List String) :
    List String :=
  (apc.filter fun kv => kv.2.all fun c => decide (c ∈ cols)).map Prod.fst

inductive AddAtomsError where
  | exceptionNoKeyMatched
deriving DecidableEq

/-- `DataLayer.add_atoms` (lines 185-250) after the atom_index validation:
the input is reduced to the column-name set of the DataFrame, and the
catalog is a parameter standing for the module-level APC_DICT. On success
the Python call returns True; the list records the properties stored by the
loop, in order. A bare Exception is raised when no property matched. -/
def addAtoms (apc : List (String × List String)) (cols : List String) :
    Except AddAtomsError (Bool × List String) :=
  let matched := matchedProperties apc cols
  if matched.isEmpty then .error .exceptionNoKeyMatched
  else .ok (true, matched)

theorem matchedProperties_extra (apc : List (String × List String))
    (cols extra : List String)
    (hextra : ∀ e ∈ extra, ∀ kv ∈ apc, (∀ c ∈ kv.2, c ∈ cols ++ extra) → e ∉ kv.2) :
    matchedProperties apc (cols ++ extra) = matchedProperties apc cols := by
  unfold matchedProperties
  congr 1
  apply List.filter_congr
  intro kv hkv
  by_cases hall : ∀ c ∈ kv.2, c ∈ cols
  · have h1 : (kv.2.all fun c => decide (c ∈ cols ++ extra)) = true := by
      rw [List.all_eq_true]
      intro c hc
      rw [decide_eq_true_eq, List.mem_append]
      exact Or.inl (hall c hc)
    have h2 : (kv.2.all fun c => decide (c ∈ cols)) = true := by
      rw [List.all_eq_true]
      intro c hc
      rw [decide_eq_true_eq]
      exact hall c hc
    rw [h1, h2]
  · have h1 : (kv.2.all fun c => decide (c ∈ cols ++ extra)) = false := by
      by_contra hne
      have htrue := eq_true_of_ne_false hne
      rw [List.all_eq_true] at htrue
      have hext : ∀ c ∈ kv.2, c ∈ cols ++ extra := by
        intro c hc
        have := htrue c hc
        rwa [decide_eq_true_eq] at this
      apply hall
      intro c hc
      rcases List.mem_append.mp (hext c hc) with h | h
      · exact h
      · exact absurd hc (hextra c h kv hkv hext)
    have h2 : (kv.2.all fun c => decide (c ∈ cols)) = false := by
      by_contra hne
      have htrue := eq_true_of_ne_false hne
      rw [List.all_eq_true] at htrue
      apply hall
      intro c hc
      have := htrue c hc
      rwa [decide_eq_true_eq] at this
    rw [h1, h2]

/-- C7: add_atoms raises exactly when no property of the catalog has its
full required-column set among the input columns, returns True (with the
matched properties stored) when at least one does, and ignores columns that
belong to no matched property (they change neither outcome nor the stored
set). -/
theorem add_atoms_matching (apc : List (String × List String)) (cols extra : List String)
    (hextra : ∀ e ∈ extra, ∀ kv ∈ apc, (∀ c ∈ kv.2, c ∈ cols ++ extra) → e ∉ kv.2) :
    ((∀ kv ∈ apc, ¬ ∀ c ∈ kv.2, c ∈ cols) →
      addAtoms apc cols = .error .exceptionNoKeyMatched) ∧
    ((∃ kv ∈ apc, ∀ c ∈ kv.2, c ∈ cols) →
      addAtoms apc cols = .ok (true, matchedProperties apc cols)) ∧
    addAtoms apc (cols ++ extra) = addAtoms apc cols := by
  refine ⟨?_, ?_, ?_⟩
  · intro hnone
    have hemp : matchedProperties apc cols = [] := by
      unfold matchedProperties
      rw [List.map_eq_nil_iff]
      rw [List.filter_eq_nil_iff]
      intro kv hkv
      intro hall
      rw [List.all_eq_true] at hall
      exact hnone kv hkv fun c hc => decide_eq_true_eq.mp (hall c hc)
    simp [addAtoms, hemp]
  · rintro ⟨kv, hkv, hall⟩
    have hne : ¬ (matchedProperties apc cols).isEmpty = true := by
      rw [List.isEmpty_iff]
      unfold matchedProperties
      rw [List.map_eq_nil_iff, List.filter_eq_nil_iff]
      push_neg
      refine ⟨kv, hkv, ?_⟩
      rw [List.all_eq_true]
      intro c hc
      rw [decide_eq_true_eq]
      exact hall c hc
    simp [addAtoms, hne]
  · unfold addAtoms
    rw [matchedProperties_extra apc cols extra hextra]

theorem add_atoms_matching_witness :
    (∃ kv ∈ APC_DICT, ∀ c ∈ kv.2, c ∈ ["mass", "charge"]) ∧
    addAtoms APC_DICT ["mass", "charge"] = .ok (true, ["charge", "mass"]) ∧
    addAtoms APC_DICT (["mass", "charge"] ++ ["bogus_col"]) =
      addAtoms APC_DICT ["mass", "charge"] ∧
    addAtoms APC_DICT ["bogus_col"] = .error .exceptionNoKeyMatched := by
  have h := add_atoms_matching APC_DICT ["mass", "charge"] ["bogus_col"] (by decide)
  have h2 := add_atoms_matching APC_DICT ["bogus_col"] [] (by decide)
  refine ⟨⟨("mass", ["mass"]), by decide, by decide⟩, ?_, h.2.2, h2.1 (by decide)⟩
  rw [h.2.1 ⟨("mass", ["mass"]), by decide, by decide⟩]
  decide

/-- Python str.lower / str.upper as used on property names: per-character
ASCII case mapping (String.map does not reduce definitionally, so the map
is taken over the character list directly). -/
def strLower (x : String) : String := ⟨x.data.map Char.toLower⟩

def strUpper (x : String) : String := ⟨x.data.map Char.toUpper⟩

inductive GetAtomsError where
  | keyErrorUnknownProps (invalid : List String)
deriving DecidableEq

/-- `DataLayer.get_atoms` (lines 252-298). Each requested property name is
lower-cased; when any lower-cased name is not in the catalog, a single
KeyError is raised whose message lists the distinct invalid names (the
Python set difference rendered as a list); otherwise the per-property
tables are read and concatenated column-wise in request order. `read`
stands for the per-property table read `_get_atom_table` (the tabular
backend is an external collaborator); `T` is the table type. -/
def get_atoms {T : Type} (read : String → T) (properties : List String) :
    Except GetAtomsError (List T) :=
  let props := properties.map strLower
  let invalid := (props.filter fun p => decide (p ∉ valid_properties)).dedup
  if invalid.isEmpty then .ok (props.map read) else .error (.keyErrorUnknownProps invalid)

/-- C8: when some requested name is unknown, get_atoms fails with a single
error whose message lists every invalid (lower-cased) name of the request,
not only the first one, and the outcome does not depend on the table
reader: the error is raised before any table is read. -/
theorem get_atoms_batch_error (properties : List String) (x0 : String)
    (hx0 : x0 ∈ properties) (hbad : strLower x0 ∉ valid_properties) :
    ∃ msg, (∀ (T : Type) (read : String → T),
        get_atoms read properties = .error (.keyErrorUnknownProps msg)) ∧
      (∀ x ∈ properties, strLower x ∉ valid_properties → strLower x ∈ msg) ∧
      ∀ y ∈ msg, y ∉ valid_properties := by
  refine ⟨((properties.map strLower).filter fun p =>
      decide (p ∉ valid_properties)).dedup, ?_, ?_, ?_⟩
  · intro T read
    unfold get_atoms
    rw [if_neg]
    rw [List.isEmpty_iff]
    intro hemp
    have hmem : strLower x0 ∈ ((properties.map strLower).filter fun p =>
        decide (p ∉ valid_properties)).dedup := by
      rw [List.mem_dedup]
      refine List.mem_filter.mpr ⟨List.mem_map_of_mem _ hx0, ?_⟩
      rw [decide_eq_true_eq]
      exact hbad
    rw [hemp] at hmem
    simp at hmem
  · intro x hx hxbad
    rw [List.mem_dedup]
    refine List.mem_filter.mpr ⟨List.mem_map_of_mem _ hx, ?_⟩
    rw [decide_eq_true_eq]
    exact hxbad
  · intro y hy
    rw [List.mem_dedup] at hy
    have := List.of_mem_filter hy
    rwa [decide_eq_true_eq] at this

theorem get_atoms_batch_error_witness :
    "bogus1" ∈ ["mass", "bogus1", "bogus2"] ∧
    strLower "bogus1" ∉ valid_properties ∧
    get_atoms (fun _ => (0 : ℕ)) ["mass", "bogus1", "bogus2"] =
      .error (.keyErrorUnknownProps ["bogus1", "bogus2"]) ∧
    (∃ msg, (∀ (T : Type) (read : String → T),
        get_atoms read ["mass", "bogus1", "bogus2"] = .error (.keyErrorUnknownProps msg)) ∧
      (∀ x ∈ ["mass", "bogus1", "bogus2"], strLower x ∉ valid_properties → strLower x ∈ msg) ∧
      ∀ y ∈ msg, y ∉ valid_properties) := by
  refine ⟨by decide, by decide, by decide,
    get_atoms_batch_error ["mass", "bogus1", "bogus2"] "bogus1" (by decide) (by decide)⟩

/-- The result of get_atoms depends on the request only through the
lower-cased names. -/
theorem get_atoms_lower_congr {T : Type} (read : String → T) (l₁ l₂ : List String)
    (h : l₁.map strLower = l₂.map strLower) :
    get_atoms read l₁ = get_atoms read l₂ := by
  unfold get_atoms
  rw [h]

/-- C10: get_atoms lower-cases every requested name before validation and
table lookup, and every catalog property name is lower case; hence
requesting the upper-case spelling of a catalog property returns the same
table as requesting the property itself, instead of raising. -/
theorem get_atoms_case_insensitive {T : Type} (read : String → T) (p : String)
    (hp : p ∈ valid_properties) :
    get_atoms read [strUpper p] = get_atoms read [p] := by
  apply get_atoms_lower_congr
  simp [valid_properties, APC_DICT] at hp
  rcases hp with h | h | h | h | h
  all_goals subst h
  all_goals decide

theorem get_atoms_case_insensitive_witness :
    "mass" ∈ valid_properties ∧
    get_atoms (fun s => s) [strUpper "mass"] = get_atoms (fun s => s) ["mass"] :=
  ⟨by decide, get_atoms_case_insensitive (fun s => s) "mass" (by decide)⟩

end EEX
